import Mathlib

/-!
Verification of the workflow-orchestrator design specified for the
chaoschain-genesis-studio repository, together with a shallow embedding of
the faucet-request script `src/request_faucet.js`.

The orchestrator core (Step Registry, Execution Engine, Audit Recorder) is
described in the repository's specification but its implementation is not
among the shipped source files, so the definitions below are modelled from
the spec.  The faucet script is embedded directly from `src/request_faucet.js`.
-/

namespace Genesis

/-- Modelled from the spec: outcome status of one step attempt
(`status (success | failure)` in the StepRecord data model, §3). -/
inductive Status where
  | success
  | failure
deriving DecidableEq, Repr

/-- Modelled from the spec: the Context is "a mapping from string keys to
values, accumulated across step execution" (§3).  Represented as an ordered
association list of key/value pairs; lookup takes the first match. -/
abbrev Context := List (String × String)

/-- Key membership in a Context. -/
def ctxHas (ctx : Context) (k : String) : Bool :=
  ctx.any (fun p => p.1 == k)

/-- Lookup of a key's value in a Context (first match). -/
def ctxGet (ctx : Context) (k : String) : Option String :=
  (ctx.find? (fun p => p.1 == k)).map (fun p => p.2)

/-- Modelled from the spec: a Step is "a named unit of work" with "name,
ordered list of required context keys, the external call it performs, the
context keys it produces" (§3), plus the retryable mark of §4.2.d.  The
external call is an opaque collaborator: it receives the current context and
the attempt number and either returns the produced key/value pairs or fails
with an error detail string. -/
structure Step where
  name : String
  requiredKeys : List String
  producesKeys : List String
  retryable : Bool
  call : Context → Nat → Except String (List (String × String))

/-- Modelled from the spec: one audit entry — "step name, ...
status (success | failure), error detail if failed, output keys produced.
Immutable once appended." (§3).  Each retry attempt is recorded as a distinct
sub-event (§4.2.d), so the record carries its attempt number. -/
structure StepRecord where
  stepName : String
  attempt : Nat
  status : Status
  errorDetail : Option String
  outputKeys : List String
deriving DecidableEq, Repr

/-- Modelled from the spec: the error taxonomy of §7 — configuration errors
(duplicate step, missing dependency, key collision) and the aggregate
workflow failure wrapping the last collaborator failure's detail. -/
inductive OrchestratorError where
  | duplicateStep (name : String)
  | missingDependency (stepName key : String)
  | keyCollision (stepName key : String)
  | workflowAborted (stepName detail : String) (attempts : Nat)
deriving DecidableEq, Repr

/-- The step a given orchestrator error is attributed to. -/
def errStepName : OrchestratorError → String
  | OrchestratorError.duplicateStep n => n
  | OrchestratorError.missingDependency n _ => n
  | OrchestratorError.keyCollision n _ => n
  | OrchestratorError.workflowAborted n _ _ => n

/-- Modelled from the spec: `RunResult` containing the final context and the
Run Trail (§4.2), with `success: true` on normal completion and the error of
an aborted run otherwise. -/
structure RunResult where
  success : Bool
  context : Context
  trail : List StepRecord
  error : Option OrchestratorError
deriving DecidableEq, Repr

/-- Modelled from the spec: engine configuration — "a configured maximum
attempt count with a fixed or exponential backoff delay between attempts
(delay is a configuration option, not hardcoded)" (§4.2.d). -/
structure EngineConfig where
  maxAttempts : Nat
  backoffDelayMs : Nat
  exponentialBackoff : Bool
deriving DecidableEq, Repr

/-- Modelled from the spec: how many attempts a step is given — retryable
steps get the configured maximum, others exactly one attempt (§4.2.d). -/
def maxAttemptsFor (cfg : EngineConfig) (step : Step) : Nat :=
  if step.retryable then cfg.maxAttempts else 1

/-- First declared required key of a step that is absent from the context
(`none` when every required key is present), in declaration order (§4.2.a). -/
def firstMissing (ctx : Context) : List String → Option String
  | [] => none
  | k :: ks => if ctxHas ctx k then firstMissing ctx ks else some k

/-- First produced key that already exists in the context (`none` when the
produced keys are all fresh), §4.2.c. -/
def firstCollision (ctx : Context) (outs : List (String × String)) : Option String :=
  ((outs.find? (fun p => ctxHas ctx p.1)).map (fun p => p.1))

/-- Modelled from the spec: the attempt loop of §4.2.b/d.  `attemptCall step
ctx i n` performs up to `n` attempts of the step's external call starting at
attempt number `i`.  It returns the failure sub-records of the unsuccessful
attempts (one distinct sub-event per attempt, in attempt order) together with
either the successful attempt's number and outputs, or the last failure's
detail and attempt number once all attempts exhaust. -/
def attemptCall (step : Step) (ctx : Context) :
    Nat → Nat → List StepRecord × Except (String × Nat) (Nat × List (String × String))
  | i, 0 => ([], Except.error ("no attempts configured", i))
  | i, 1 =>
    match step.call ctx i with
    | Except.ok outs => ([], Except.ok (i, outs))
    | Except.error d =>
      ([⟨step.name, i, Status.failure, some d, []⟩], Except.error (d, i))
  | i, n + 2 =>
    match step.call ctx i with
    | Except.ok outs => ([], Except.ok (i, outs))
    | Except.error d =>
      let res := attemptCall step ctx (i + 1) (n + 1)
      (⟨step.name, i, Status.failure, some d, []⟩ :: res.1, res.2)

/-- Modelled from the spec: the Execution Engine's main loop (§4.2).  For
each step in order it (a) verifies every declared required key exists in
context, failing with `MissingDependencyError` before any external call is
attempted; (b) invokes the step's external call through the attempt loop;
(c) on success merges the produced keys into context, failing with
`KeyCollisionError` if a produced key already exists, and appends a success
record; (d) once attempts exhaust, aborts with `WorkflowAbortedError`
wrapping the last failure's detail.  The returned trail is the concatenation
of each processed step's records. -/
def runSteps (cfg : EngineConfig) : List Step → Context → RunResult
  | [], ctx => ⟨true, ctx, [], none⟩
  | step :: rest, ctx =>
    match firstMissing ctx step.requiredKeys with
    | some k =>
      ⟨false, ctx,
        [⟨step.name, 0, Status.failure, some ("missing dependency: " ++ k), []⟩],
        some (OrchestratorError.missingDependency step.name k)⟩
    | none =>
      match attemptCall step ctx 1 (maxAttemptsFor cfg step) with
      | (recs, Except.error (d, i)) =>
        ⟨false, ctx, recs, some (OrchestratorError.workflowAborted step.name d i)⟩
      | (recs, Except.ok (i, outs)) =>
        match firstCollision ctx outs with
        | some k =>
          ⟨false, ctx,
            recs ++ [⟨step.name, i, Status.failure, some ("key collision: " ++ k), []⟩],
            some (OrchestratorError.keyCollision step.name k)⟩
        | none =>
          let res := runSteps cfg rest (ctx ++ outs)
          ⟨res.success, res.context,
            (recs ++ [⟨step.name, i, Status.success, none, outs.map (fun p => p.1)⟩])
              ++ res.trail,
            res.error⟩

/-- Modelled from the spec: `run(steps, initialContext)` produces a
`RunResult` containing the final context and the Run Trail (§4.2). -/
def run (cfg : EngineConfig) (steps : List Step) (initCtx : Context) : RunResult :=
  runSteps cfg steps initCtx

/-- Modelled from the spec: the Step Registry, "an ordered list of named
steps" (§2). -/
structure Registry where
  steps : List Step

/-- Whether the registry already holds a step of the given name. -/
def hasStepNamed (r : Registry) (n : String) : Bool :=
  r.steps.any (fun s => s.name == n)

/-- Modelled from the spec: `register(step)` adds a step to the ordered
list; fails with `DuplicateStepError` if a step of the same name already
exists (§4.1).  On failure the registry is returned unchanged together with
the error. -/
def register (r : Registry) (s : Step) : Registry × Option OrchestratorError :=
  if hasStepNamed r s.name then
    (r, some (OrchestratorError.duplicateStep s.name))
  else
    (⟨r.steps ++ [s]⟩, none)

/-- Modelled from the spec: `allSteps()` returns the list in registration
order (§4.1). -/
def allSteps (r : Registry) : List Step := r.steps

/-- Modelled from the spec: the Audit Recorder holding the append-only Run
Trail (§4.3). -/
structure AuditRecorder where
  entries : List StepRecord
deriving DecidableEq, Repr

/-- Modelled from the spec: `record(entry)` appends immutably (§4.3). -/
def record (a : AuditRecorder) (e : StepRecord) : AuditRecorder :=
  ⟨a.entries ++ [e]⟩

/-- Modelled from the spec: `trail()` returns the full ordered sequence so
far, as a snapshot value (§4.3). -/
def trail (a : AuditRecorder) : List StepRecord := a.entries

/-- Decidable transcription of the spec's "all collaborators succeed
deterministically" scenario precondition (§8): every step in order finds its
required keys in the accumulated context, succeeds on its first attempt, and
produces only fresh keys. -/
def firstAttemptClean : List Step → Context → Bool
  | [], _ => true
  | step :: rest, ctx =>
    (firstMissing ctx step.requiredKeys == none) &&
    (match step.call ctx 1 with
     | Except.error _ => false
     | Except.ok outs =>
       (firstCollision ctx outs == none) && firstAttemptClean rest (ctx ++ outs))

/-- Modelled from the spec: the RegisterIdentity step of the §8 example
scenario, backed by a deterministically succeeding Identity Collaborator. -/
def registerIdentityStep : Step :=
  { name := "RegisterIdentity", requiredKeys := [], producesKeys := ["identityHandle"],
    retryable := false,
    call := fun _ _ => Except.ok [("identityHandle", "agent-alice")] }

/-- Modelled from the spec: the PerformWork step of the §8 example scenario,
backed by a deterministically succeeding Work Collaborator. -/
def performWorkStep : Step :=
  { name := "PerformWork", requiredKeys := ["identityHandle"],
    producesKeys := ["artifact", "artifactRef"], retryable := false,
    call := fun _ _ => Except.ok [("artifact", "analysis"), ("artifactRef", "work-1")] }

/-- Modelled from the spec: the StoreEvidence step of the §8 example
scenario, backed by a deterministically succeeding Storage Collaborator. -/
def storeEvidenceStep : Step :=
  { name := "StoreEvidence", requiredKeys := ["artifact"], producesKeys := ["contentRef"],
    retryable := false,
    call := fun _ _ => Except.ok [("contentRef", "ipfs-cid")] }

/-- Modelled from the spec: the ValidateWork step of the §8 example scenario,
backed by a deterministically succeeding Validation Collaborator. -/
def validateWorkStep : Step :=
  { name := "ValidateWork", requiredKeys := ["contentRef"], producesKeys := ["score"],
    retryable := false,
    call := fun _ _ => Except.ok [("score", "95")] }

/-- Modelled from the spec: the Settle step of the §8 example scenario,
backed by a deterministically succeeding Settlement Collaborator
(non-retryable by default, §6). -/
def settleStep : Step :=
  { name := "Settle", requiredKeys := ["score"], producesKeys := ["receiptRef"],
    retryable := false,
    call := fun _ _ => Except.ok [("receiptRef", "usdc-tx")] }

/-- Modelled from the spec: the Settle step whose collaborator always fails
(the aborted-run example scenario of §8). -/
def failingSettleStep : Step :=
  { name := "Settle", requiredKeys := ["score"], producesKeys := ["receiptRef"],
    retryable := false,
    call := fun _ _ => Except.error "SettlementError: payment failed" }

/-- The §8 example registry order: identity before work, work before
validation, validation before settlement. -/
def demoSteps : List Step :=
  [registerIdentityStep, performWorkStep, storeEvidenceStep, validateWorkStep, settleStep]

/-- The §8 aborted-run scenario: the first four steps succeed and the
Settle collaborator always fails. -/
def demoSettleFailSteps : List Step :=
  [registerIdentityStep, performWorkStep, storeEvidenceStep, validateWorkStep,
   failingSettleStep]

/-- A concrete engine configuration for the example scenarios. -/
def demoConfig : EngineConfig :=
  { maxAttempts := 3, backoffDelayMs := 100, exponentialBackoff := false }

/-- A step whose collaborator produces a key the demo context already holds,
used to exercise the `KeyCollisionError` path. -/
def collidingStep : Step :=
  { name := "Collide", requiredKeys := [], producesKeys := ["identityHandle"],
    retryable := false,
    call := fun _ _ => Except.ok [("identityHandle", "again")] }

/-- A retryable step whose collaborator always fails, used to exercise retry
exhaustion. -/
def alwaysFailRetryStep : Step :=
  { name := "FlakyNetwork", requiredKeys := [], producesKeys := [], retryable := true,
    call := fun _ _ => Except.error "StorageUnavailableError" }

/-- A retryable step whose collaborator fails on the first attempt and
succeeds from the second attempt on. -/
def failOnceStep : Step :=
  { name := "FlakyStore", requiredKeys := [], producesKeys := ["contentRef"],
    retryable := true,
    call := fun _ i =>
      if i ≤ 1 then Except.error "StorageUnavailableError"
      else Except.ok [("contentRef", "cid-2")] }

/-- A step declaring a required key that no prior step produces, used to
exercise the `MissingDependencyError` path. -/
def orphanStep : Step :=
  { name := "Orphan", requiredKeys := ["missingKey"], producesKeys := [],
    retryable := false,
    call := fun _ _ => Except.ok [] }

/-! ## Embedding of `src/request_faucet.js` -/

/-- The environment of one execution of the faucet-request script:
the `BASE_SEPOLIA_PRIVATE_KEY` environment variable, the behaviour of the
`ethers.Wallet` constructor (returning the derived address or throwing), and
the behaviour of `cdp.evm.requestFaucet` (returning a transaction hash or
rejecting). -/
structure FaucetWorld where
  privateKeyEnv : Option String
  newWallet : Option String → Except String String
  requestFaucet : String → Except String String

/-- Observable behaviour of one call of the script's `main`: the
`console.log` lines in order, the addresses submitted to the faucet
collaborator, and whether `main`'s promise resolved or rejected. -/
structure MainTrace where
  logs : List String
  faucetRequests : List String
  result : Except String Unit
deriving Repr

/-- Shallow embedding of `main` in `src/request_faucet.js`: construct a
wallet from the `BASE_SEPOLIA_PRIVATE_KEY` environment variable (an invalid
or missing key makes the constructor throw, rejecting `main`), log the
created account's address, request ETH from the Base Sepolia faucet for that
address, and log the transaction link. -/
def faucetMain (w : FaucetWorld) : MainTrace :=
  match w.newWallet w.privateKeyEnv with
  | Except.error e => ⟨[], [], Except.error e⟩
  | Except.ok addr =>
    match w.requestFaucet addr with
    | Except.error e =>
      ⟨["Created account: " ++ addr], [addr], Except.error e⟩
    | Except.ok tx =>
      ⟨["Created account: " ++ addr,
        "ETH tx: https://sepolia.basescan.org/tx/" ++ tx], [addr], Except.ok ()⟩

/-- Observable behaviour of one execution of the whole script: the standard
log lines, the `console.error` lines, the faucet submissions, and the exit
code when the process exits explicitly (`none` means natural completion with
status 0). -/
structure ScriptResult where
  logs : List String
  errorLogs : List String
  faucetRequests : List String
  exitCode : Option Nat
deriving DecidableEq, Repr

/-- Shallow embedding of the script's top level,
`main().catch(e => { console.error(e); process.exit(1); })`: a rejection of
`main` is logged via `console.error` and the process exits with status 1;
otherwise the script completes naturally. -/
def faucetScript (w : FaucetWorld) : ScriptResult :=
  let t := faucetMain w
  match t.result with
  | Except.ok _ => ⟨t.logs, [], t.faucetRequests, none⟩
  | Except.error e => ⟨t.logs, [e], t.faucetRequests, some 1⟩

/-- A concrete execution environment in which the wallet constructor throws
(for instance because `BASE_SEPOLIA_PRIVATE_KEY` is unset). -/
def badKeyWorld : FaucetWorld :=
  { privateKeyEnv := none,
    newWallet := fun _ => Except.error "invalid private key",
    requestFaucet := fun _ => Except.ok "0xabc" }

/-- A concrete execution environment with a valid private key whose faucet
call is rejected. -/
def goodKeyWorld : FaucetWorld :=
  { privateKeyEnv := some "0xkey",
    newWallet := fun _ => Except.ok "0xaddr",
    requestFaucet := fun _ => Except.error "faucet rate limited" }

/-! ## Helper lemmas -/

theorem maxAttemptsFor_pos (cfg : EngineConfig) (step : Step) (hA : 1 ≤ cfg.maxAttempts) :
    1 ≤ maxAttemptsFor cfg step := by
  unfold maxAttemptsFor
  split
  · exact hA
  · exact Nat.le_refl 1

theorem ctxHas_append_left (ctx outs : Context) (k : String) (h : ctxHas ctx k = true) :
    ctxHas (ctx ++ outs) k = true := by
  simp only [ctxHas, List.any_append, Bool.or_eq_true]
  exact Or.inl h

theorem ctxGet_append_left (ctx outs : Context) (k : String) (h : ctxHas ctx k = true) :
    ctxGet (ctx ++ outs) k = ctxGet ctx k := by
  induction ctx with
  | nil => simp [ctxHas] at h
  | cons p ctx ih =>
    cases hp : (p.1 == k) with
    | true =>
      simp [ctxGet, List.find?_cons, hp]
    | false =>
      have h' : ctxHas ctx k = true := by
        simp only [ctxHas, List.any_cons, Bool.or_eq_true] at h
        rcases h with h | h
        · rw [hp] at h; exact Bool.noConfusion h
        · exact h
      simp only [List.cons_append, ctxGet, List.find?_cons, hp]
      simpa [ctxGet] using ih h'

theorem attemptCall_ok_first (step : Step) (ctx : Context) (i n : Nat)
    (outs : List (String × String)) (h : step.call ctx i = Except.ok outs) (hn : 1 ≤ n) :
    attemptCall step ctx i n = ([], Except.ok (i, outs)) := by
  match n, hn with
  | 1, _ => simp [attemptCall, h]
  | (m + 2), _ => simp [attemptCall, h]

theorem attemptCall_ok_spec (step : Step) (ctx : Context) :
    ∀ (n i : Nat) (recs : List StepRecord) (j : Nat) (outs : List (String × String)),
      attemptCall step ctx i n = (recs, Except.ok (j, outs)) →
      recs.map (fun r => r.attempt) = List.range' i recs.length ∧
      j = i + recs.length ∧
      (∀ r ∈ recs, r.stepName = step.name ∧ r.status = Status.failure) := by
  intro n
  induction n using Nat.strong_induction_on with
  | _ n ih =>
    match n with
    | 0 =>
      intro i recs j outs h
      simp [attemptCall] at h
    | 1 =>
      intro i recs j outs h
      cases hc : step.call ctx i with
      | ok o =>
        simp only [attemptCall, hc, Prod.mk.injEq, Except.ok.injEq] at h
        obtain ⟨h1, h2, h3⟩ := h
        subst h1; subst h2
        simp
      | error d =>
        simp [attemptCall, hc] at h
    | (m + 2) =>
      intro i recs j outs h
      cases hc : step.call ctx i with
      | ok o =>
        simp only [attemptCall, hc, Prod.mk.injEq, Except.ok.injEq] at h
        obtain ⟨h1, h2, h3⟩ := h
        subst h1; subst h2
        simp
      | error d =>
        simp only [attemptCall, hc, Prod.mk.injEq] at h
        obtain ⟨h1, h2⟩ := h
        have happ : attemptCall step ctx (i + 1) (m + 1) =
            ((attemptCall step ctx (i + 1) (m + 1)).1, Except.ok (j, outs)) := by
          rw [← h2]
        obtain ⟨ha, hb, hnm⟩ := ih (m + 1) (by omega) (i + 1)
          (attemptCall step ctx (i + 1) (m + 1)).1 j outs happ
        subst h1
        refine ⟨?_, ?_, ?_⟩
        · simp only [List.map_cons, ha, List.length_cons]
          rw [List.range'_succ]
        · simp only [List.length_cons]; omega
        · intro r hr
          rcases List.mem_cons.mp hr with hr | hr
          · subst hr; exact ⟨rfl, rfl⟩
          · exact hnm r hr

theorem attemptCall_error_spec (step : Step) (ctx : Context) :
    ∀ (n i : Nat) (recs : List StepRecord) (d : String) (j : Nat), 1 ≤ n →
      attemptCall step ctx i n = (recs, Except.error (d, j)) →
      ∃ pre, recs = pre ++ [⟨step.name, j, Status.failure, some d, []⟩] := by
  intro n
  induction n using Nat.strong_induction_on with
  | _ n ih =>
    match n with
    | 0 =>
      intro i recs d j hn _
      omega
    | 1 =>
      intro i recs d j _ h
      cases hc : step.call ctx i with
      | ok o => simp [attemptCall, hc] at h
      | error d' =>
        simp only [attemptCall, hc, Prod.mk.injEq, Except.error.injEq] at h
        obtain ⟨h1, h2, h3⟩ := h
        subst h1; subst h2; subst h3
        exact ⟨[], rfl⟩
    | (m + 2) =>
      intro i recs d j _ h
      cases hc : step.call ctx i with
      | ok o => simp [attemptCall, hc] at h
      | error d' =>
        simp only [attemptCall, hc, Prod.mk.injEq] at h
        obtain ⟨h1, h2⟩ := h
        have happ : attemptCall step ctx (i + 1) (m + 1) =
            ((attemptCall step ctx (i + 1) (m + 1)).1, Except.error (d, j)) := by
          rw [← h2]
        obtain ⟨pre, hpre⟩ := ih (m + 1) (by omega) (i + 1)
          (attemptCall step ctx (i + 1) (m + 1)).1 d j (by omega) happ
        subst h1
        exact ⟨⟨step.name, i, Status.failure, some d', []⟩ :: pre, by rw [hpre]; rfl⟩

theorem attemptCall_fail_spec (step : Step) (ctx : Context) (f : Nat → String)
    (hf : ∀ j, step.call ctx j = Except.error (f j)) :
    ∀ (n i : Nat), attemptCall step ctx i (n + 1) =
      ((List.range' i (n + 1)).map
          (fun j => ⟨step.name, j, Status.failure, some (f j), []⟩),
        Except.error (f (i + n), i + n)) := by
  intro n
  induction n with
  | zero =>
    intro i
    simp [attemptCall, hf i]
  | succ m ihm =>
    intro i
    have harith : i + 1 + m = i + (m + 1) := by omega
    simp [attemptCall, hf i, ihm (i + 1), harith, List.range'_succ]

theorem attemptCall_retry_spec (step : Step) (ctx : Context) (f : Nat → String) :
    ∀ (k i n : Nat) (outs : List (String × String)),
      (∀ j, j < k → step.call ctx (i + j) = Except.error (f (i + j))) →
      step.call ctx (i + k) = Except.ok outs → k < n →
      attemptCall step ctx i n =
        ((List.range' i k).map
            (fun j => ⟨step.name, j, Status.failure, some (f j), []⟩),
          Except.ok (i + k, outs)) := by
  intro k
  induction k with
  | zero =>
    intro i n outs _ hok hn
    rw [attemptCall_ok_first step ctx i n outs (by simpa using hok) (by omega)]
    simp
  | succ m ihm =>
    intro i n outs hfail hok hn
    obtain ⟨p, rfl⟩ : ∃ p, n = p + 2 := ⟨n - 2, by omega⟩
    have h0 : step.call ctx i = Except.error (f i) := by simpa using hfail 0 (by omega)
    have hf' : ∀ j, j < m → step.call ctx (i + 1 + j) = Except.error (f (i + 1 + j)) := by
      intro j hj
      have := hfail (j + 1) (by omega)
      rw [show i + (j + 1) = i + 1 + j by omega] at this
      exact this
    have hok' : step.call ctx (i + 1 + m) = Except.ok outs := by
      rw [show i + 1 + m = i + (m + 1) by omega]
      exact hok
    have harith : i + 1 + m = i + (m + 1) := by omega
    simp [attemptCall, h0, ihm (i + 1) (p + 1) outs hf' hok' (by omega), harith,
      List.range'_succ]

theorem runSteps_clean (cfg : EngineConfig) (hA : 1 ≤ cfg.maxAttempts) :
    ∀ (steps : List Step) (ctx : Context), firstAttemptClean steps ctx = true →
      (runSteps cfg steps ctx).success = true ∧
      (runSteps cfg steps ctx).error = none ∧
      (runSteps cfg steps ctx).trail.map (fun r => r.stepName) = steps.map Step.name := by
  intro steps
  induction steps with
  | nil =>
    intro ctx _
    simp [runSteps]
  | cons step rest ih =>
    intro ctx hclean
    cases hcall : step.call ctx 1 with
    | error d =>
      rw [firstAttemptClean, hcall] at hclean
      simp at hclean
    | ok outs =>
      rw [firstAttemptClean, hcall] at hclean
      simp only [Bool.and_eq_true, beq_iff_eq] at hclean
      obtain ⟨hmiss, hcol, hrest⟩ := hclean
      have hac := attemptCall_ok_first step ctx 1 (maxAttemptsFor cfg step) outs hcall
        (maxAttemptsFor_pos cfg step hA)
      obtain ⟨h1, h2, h3⟩ := ih (ctx ++ outs) hrest
      simp [runSteps, hmiss, hac, hcol, h1, h2, h3]

theorem runSteps_failure_last (cfg : EngineConfig) (hA : 1 ≤ cfg.maxAttempts) :
    ∀ (steps : List Step) (ctx : Context), (runSteps cfg steps ctx).success = false →
      ∃ (e : OrchestratorError) (pre : List StepRecord) (last : StepRecord),
        (runSteps cfg steps ctx).error = some e ∧
        (runSteps cfg steps ctx).trail = pre ++ [last] ∧
        last.status = Status.failure ∧ last.stepName = errStepName e := by
  intro steps
  induction steps with
  | nil =>
    intro ctx h
    simp [runSteps] at h
  | cons step rest ih =>
    intro ctx hfail
    cases hmiss : firstMissing ctx step.requiredKeys with
    | some k =>
      simp only [runSteps, hmiss]
      exact ⟨OrchestratorError.missingDependency step.name k, [], _, rfl, rfl, rfl, rfl⟩
    | none =>
      rcases hac : attemptCall step ctx 1 (maxAttemptsFor cfg step) with ⟨recs, res⟩
      cases res with
      | error dj =>
        rcases dj with ⟨d, j⟩
        obtain ⟨pre, hpre⟩ := attemptCall_error_spec step ctx (maxAttemptsFor cfg step) 1
          recs d j (maxAttemptsFor_pos cfg step hA) hac
        simp only [runSteps, hmiss, hac]
        exact ⟨OrchestratorError.workflowAborted step.name d j, pre, _, rfl,
          by rw [hpre], rfl, rfl⟩
      | ok io =>
        rcases io with ⟨i, outs⟩
        cases hcol : firstCollision ctx outs with
        | some k =>
          simp only [runSteps, hmiss, hac, hcol]
          exact ⟨OrchestratorError.keyCollision step.name k, recs, _, rfl, rfl, rfl, rfl⟩
        | none =>
          have hsub : (runSteps cfg rest (ctx ++ outs)).success = false := by
            simpa [runSteps, hmiss, hac, hcol] using hfail
          obtain ⟨e, pre, last, he, htr, hst, hnm⟩ := ih (ctx ++ outs) hsub
          refine ⟨e,
            (recs ++ [⟨step.name, i, Status.success, none, outs.map (fun p => p.1)⟩]) ++ pre,
            last, ?_, ?_, hst, hnm⟩
          · simp [runSteps, hmiss, hac, hcol, he]
          · simp [runSteps, hmiss, hac, hcol, htr]

theorem runSteps_success_blocks (cfg : EngineConfig) :
    ∀ (steps : List Step) (ctx : Context), (runSteps cfg steps ctx).success = true →
      ∃ blocks : List (List StepRecord),
        (runSteps cfg steps ctx).trail = blocks.flatten ∧
        List.Forall₂ (fun (step : Step) (block : List StepRecord) =>
          block ≠ [] ∧ (∀ r ∈ block, r.stepName = step.name) ∧
          block.map (fun r => r.attempt) = List.range' 1 block.length) steps blocks := by
  intro steps
  induction steps with
  | nil =>
    intro ctx _
    exact ⟨[], by simp [runSteps], List.Forall₂.nil⟩
  | cons step rest ih =>
    intro ctx hsucc
    cases hmiss : firstMissing ctx step.requiredKeys with
    | some k =>
      simp [runSteps, hmiss] at hsucc
    | none =>
      rcases hac : attemptCall step ctx 1 (maxAttemptsFor cfg step) with ⟨recs, res⟩
      cases res with
      | error dj =>
        rcases dj with ⟨d, j⟩
        simp [runSteps, hmiss, hac] at hsucc
      | ok io =>
        rcases io with ⟨i, outs⟩
        cases hcol : firstCollision ctx outs with
        | some k =>
          simp [runSteps, hmiss, hac, hcol] at hsucc
        | none =>
          have hsub : (runSteps cfg rest (ctx ++ outs)).success = true := by
            simpa [runSteps, hmiss, hac, hcol] using hsucc
          obtain ⟨hattempts, hi, hnames⟩ :=
            attemptCall_ok_spec step ctx (maxAttemptsFor cfg step) 1 recs i outs hac
          obtain ⟨blocks, htr, hall⟩ := ih (ctx ++ outs) hsub
          refine ⟨(recs ++ [⟨step.name, i, Status.success, none,
              outs.map (fun p => p.1)⟩]) :: blocks, ?_, ?_⟩
          · simp [runSteps, hmiss, hac, hcol, htr]
          · refine List.Forall₂.cons ⟨by simp, ?_, ?_⟩ hall
            · intro r hr
              rcases List.mem_append.mp hr with hr | hr
              · exact (hnames r hr).1
              · simp at hr
                subst hr
                rfl
            · rw [List.map_append, hattempts, hi]
              simp [List.range'_1_concat]

theorem runSteps_preserves (cfg : EngineConfig) :
    ∀ (steps : List Step) (ctx : Context) (k : String), ctxHas ctx k = true →
      ctxHas (runSteps cfg steps ctx).context k = true ∧
      ctxGet (runSteps cfg steps ctx).context k = ctxGet ctx k := by
  intro steps
  induction steps with
  | nil =>
    intro ctx k h
    exact ⟨h, rfl⟩
  | cons step rest ih =>
    intro ctx k h
    cases hmiss : firstMissing ctx step.requiredKeys with
    | some key =>
      simp only [runSteps, hmiss]
      exact ⟨h, trivial⟩
    | none =>
      rcases hac : attemptCall step ctx 1 (maxAttemptsFor cfg step) with ⟨recs, res⟩
      cases res with
      | error dj =>
        rcases dj with ⟨d, j⟩
        simp only [runSteps, hmiss, hac]
        exact ⟨h, trivial⟩
      | ok io =>
        rcases io with ⟨i, outs⟩
        cases hcol : firstCollision ctx outs with
        | some key =>
          simp only [runSteps, hmiss, hac, hcol]
          exact ⟨h, trivial⟩
        | none =>
          obtain ⟨ih1, ih2⟩ := ih (ctx ++ outs) k (ctxHas_append_left ctx outs k h)
          constructor
          · simpa [runSteps, hmiss, hac, hcol] using ih1
          · have : (runSteps cfg (step :: rest) ctx).context =
                (runSteps cfg rest (ctx ++ outs)).context := by
              simp [runSteps, hmiss, hac, hcol]
            rw [this, ih2, ctxGet_append_left ctx outs k h]

/-! ## Claim theorems -/

/-- Claim C1: for every run of the Execution Engine's `run(steps,
initialContext)`, the Run Trail in the returned `RunResult` has length equal
to the number of steps attempted; if a step fails after exhausting any
retries the run terminates and that step's failure record is the last trail
entry, and when every step succeeds `run()` returns `success: true` with one
trail entry per registered step — including the five-step example scenario
whose final context holds `identityHandle`, `artifactRef`, `contentRef`,
`score` and `receiptRef`. -/
theorem claim_C1_run_trail_invariant (cfg : EngineConfig) (steps : List Step)
    (ctx : Context) (hA : 1 ≤ cfg.maxAttempts) :
    (firstAttemptClean steps ctx = true →
      (run cfg steps ctx).success = true ∧
      (run cfg steps ctx).trail.length = steps.length) ∧
    ((run cfg steps ctx).success = false →
      ∃ (e : OrchestratorError) (pre : List StepRecord) (last : StepRecord),
        (run cfg steps ctx).error = some e ∧
        (run cfg steps ctx).trail = pre ++ [last] ∧
        last.status = Status.failure ∧ last.stepName = errStepName e) ∧
    ((run demoConfig demoSteps []).success = true ∧
      (run demoConfig demoSteps []).trail.length = 5 ∧
      ctxHas (run demoConfig demoSteps []).context "identityHandle" = true ∧
      ctxHas (run demoConfig demoSteps []).context "artifactRef" = true ∧
      ctxHas (run demoConfig demoSteps []).context "contentRef" = true ∧
      ctxHas (run demoConfig demoSteps []).context "score" = true ∧
      ctxHas (run demoConfig demoSteps []).context "receiptRef" = true) := by
  refine ⟨?_, ?_, ?_⟩
  · intro hclean
    obtain ⟨h1, _, h3⟩ := runSteps_clean cfg hA steps ctx hclean
    refine ⟨h1, ?_⟩
    have hlen := congrArg List.length h3
    simpa using hlen
  · exact runSteps_failure_last cfg hA steps ctx
  · decide

theorem claim_C1_run_trail_invariant_witness :
    (run demoConfig demoSteps []).success = true ∧
    (run demoConfig demoSteps []).trail.length = 5 :=
  ⟨(claim_C1_run_trail_invariant demoConfig demoSteps [] (by decide)).2.2.1,
   (claim_C1_run_trail_invariant demoConfig demoSteps [] (by decide)).2.2.2.1⟩

/-- Claim C2: the Context grows monotonically across every run — no step
execution removes or overwrites an existing context key — and a step whose
successful call produces a key that already exists in the context fails with
`KeyCollisionError`, aborting the run without the colliding value having
been merged. -/
theorem claim_C2_context_monotonic (cfg : EngineConfig) :
    (∀ (steps : List Step) (ctx : Context) (k : String), ctxHas ctx k = true →
      ctxHas (run cfg steps ctx).context k = true ∧
      ctxGet (run cfg steps ctx).context k = ctxGet ctx k) ∧
    (∀ (step : Step) (rest : List Step) (ctx : Context) (recs : List StepRecord)
        (i : Nat) (outs : List (String × String)) (k : String),
      firstMissing ctx step.requiredKeys = none →
      attemptCall step ctx 1 (maxAttemptsFor cfg step) = (recs, Except.ok (i, outs)) →
      firstCollision ctx outs = some k →
      run cfg (step :: rest) ctx =
        ⟨false, ctx,
          recs ++ [⟨step.name, i, Status.failure, some ("key collision: " ++ k), []⟩],
          some (OrchestratorError.keyCollision step.name k)⟩) := by
  constructor
  · exact fun steps ctx k h => runSteps_preserves cfg steps ctx k h
  · intro step rest ctx recs i outs k hmiss hac hcol
    simp [run, runSteps, hmiss, hac, hcol]

theorem claim_C2_context_monotonic_witness :
    run demoConfig [collidingStep] [("identityHandle", "agent-alice")] =
      ⟨false, [("identityHandle", "agent-alice")],
        [] ++ [⟨"Collide", 1, Status.failure,
          some ("key collision: " ++ "identityHandle"), []⟩],
        some (OrchestratorError.keyCollision "Collide" "identityHandle")⟩ :=
  (claim_C2_context_monotonic demoConfig).2 collidingStep []
    [("identityHandle", "agent-alice")] [] 1 [("identityHandle", "again")]
    "identityHandle" rfl rfl rfl

/-- Claim C3: a step whose declared required key is absent from the
accumulated context fails with `MissingDependencyError(stepName, key)`
before its external call is invoked — the run result is independent of the
step's collaborator (zero invocations) and the single failure record shows
the error is never retried. -/
theorem claim_C3_missing_dependency (cfg : EngineConfig) (step : Step)
    (rest : List Step) (ctx : Context) (k : String)
    (hmiss : firstMissing ctx step.requiredKeys = some k) :
    run cfg (step :: rest) ctx =
      ⟨false, ctx,
        [⟨step.name, 0, Status.failure, some ("missing dependency: " ++ k), []⟩],
        some (OrchestratorError.missingDependency step.name k)⟩ ∧
    (∀ c' : Context → Nat → Except String (List (String × String)),
      run cfg ({ step with call := c' } :: rest) ctx = run cfg (step :: rest) ctx) := by
  constructor
  · simp [run, runSteps, hmiss]
  · intro c'
    simp [run, runSteps, hmiss]

theorem claim_C3_missing_dependency_witness :
    run demoConfig [orphanStep] [] =
      ⟨false, [],
        [⟨"Orphan", 0, Status.failure, some ("missing dependency: " ++ "missingKey"), []⟩],
        some (OrchestratorError.missingDependency "Orphan" "missingKey")⟩ :=
  (claim_C3_missing_dependency demoConfig orphanStep [] [] "missingKey" rfl).1

/-- Claim C4: a retryable step whose external call fails on every attempt up
to the configured maximum produces an aborted `RunResult` carrying a
`WorkflowAbortedError` wrapping the last failure's detail, whose trail's
final entry is a failure record for that step, and whose returned context is
exactly the context accumulated before the failing step — including the §8
Settle-always-fails scenario (4 successes + 1 failure, context lacking
`receiptRef`). -/
theorem claim_C4_retry_exhaustion_abort (cfg : EngineConfig) (step : Step)
    (rest : List Step) (ctx : Context) (f : Nat → String)
    (hA : 1 ≤ cfg.maxAttempts) (hretry : step.retryable = true)
    (hmiss : firstMissing ctx step.requiredKeys = none)
    (hfail : ∀ j, step.call ctx j = Except.error (f j)) :
    (run cfg (step :: rest) ctx).success = false ∧
    (run cfg (step :: rest) ctx).context = ctx ∧
    (run cfg (step :: rest) ctx).error =
      some (OrchestratorError.workflowAborted step.name (f cfg.maxAttempts)
        cfg.maxAttempts) ∧
    (run cfg (step :: rest) ctx).trail =
      (List.range' 1 cfg.maxAttempts).map
        (fun j => ⟨step.name, j, Status.failure, some (f j), []⟩) ∧
    (run cfg (step :: rest) ctx).trail.getLast? =
      some ⟨step.name, cfg.maxAttempts, Status.failure, some (f cfg.maxAttempts), []⟩ ∧
    ((run demoConfig demoSettleFailSteps []).success = false ∧
      (run demoConfig demoSettleFailSteps []).trail.length = 5 ∧
      ctxHas (run demoConfig demoSettleFailSteps []).context "receiptRef" = false ∧
      (run demoConfig demoSettleFailSteps []).error =
        some (OrchestratorError.workflowAborted "Settle"
          "SettlementError: payment failed" 1)) := by
  obtain ⟨m, hm⟩ : ∃ m, cfg.maxAttempts = m + 1 := ⟨cfg.maxAttempts - 1, by omega⟩
  have hmax : maxAttemptsFor cfg step = m + 1 := by
    simp [maxAttemptsFor, hretry, hm]
  have hac := attemptCall_fail_spec step ctx f hfail m 1
  have h1m : 1 + m = cfg.maxAttempts := by omega
  have req : run cfg (step :: rest) ctx =
      ⟨false, ctx,
        (List.range' 1 cfg.maxAttempts).map
          (fun j => ⟨step.name, j, Status.failure, some (f j), []⟩),
        some (OrchestratorError.workflowAborted step.name (f cfg.maxAttempts)
          cfg.maxAttempts)⟩ := by
    simp only [run, runSteps, hmiss, hmax, hac]
    rw [h1m, ← hm]
  refine ⟨by rw [req], by rw [req], by rw [req], by rw [req], ?_, by decide⟩
  rw [req]
  show ((List.range' 1 cfg.maxAttempts).map
      (fun j => (⟨step.name, j, Status.failure, some (f j), []⟩ : StepRecord))).getLast? = _
  simp only [hm, List.range'_1_concat, List.map_append, List.map_cons, List.map_nil,
    List.getLast?_concat]
  rw [show 1 + m = m + 1 by omega]

theorem claim_C4_retry_exhaustion_abort_witness :
    (run demoConfig [alwaysFailRetryStep] []).success = false ∧
    (run demoConfig [alwaysFailRetryStep] []).error =
      some (OrchestratorError.workflowAborted "FlakyNetwork"
        "StorageUnavailableError" 3) :=
  ⟨(claim_C4_retry_exhaustion_abort demoConfig alwaysFailRetryStep [] []
      (fun _ => "StorageUnavailableError") (by decide) rfl rfl (fun _ => rfl)).1,
   (claim_C4_retry_exhaustion_abort demoConfig alwaysFailRetryStep [] []
      (fun _ => "StorageUnavailableError") (by decide) rfl rfl (fun _ => rfl)).2.2.1⟩

/-- Claim C5: a retryable step whose external call fails exactly `k` times
(for `k` strictly below the configured maximum attempt count) and then
succeeds on attempt `k+1` is completed successfully by `run()`, and the Run
Trail contains exactly `k+1` sub-entries for that step, ordered by attempt
number. -/
theorem claim_C5_retry_then_success (cfg : EngineConfig) (step : Step)
    (rest : List Step) (ctx : Context) (f : Nat → String) (k : Nat)
    (outs : List (String × String))
    (hretry : step.retryable = true) (hk : k + 1 ≤ cfg.maxAttempts)
    (hmiss : firstMissing ctx step.requiredKeys = none)
    (hfail : ∀ j, 1 ≤ j → j ≤ k → step.call ctx j = Except.error (f j))
    (hok : step.call ctx (k + 1) = Except.ok outs)
    (hcol : firstCollision ctx outs = none) :
    run cfg (step :: rest) ctx =
      ⟨(runSteps cfg rest (ctx ++ outs)).success,
        (runSteps cfg rest (ctx ++ outs)).context,
        ((List.range' 1 k).map (fun j => ⟨step.name, j, Status.failure, some (f j), []⟩)
            ++ [⟨step.name, k + 1, Status.success, none, outs.map (fun p => p.1)⟩])
          ++ (runSteps cfg rest (ctx ++ outs)).trail,
        (runSteps cfg rest (ctx ++ outs)).error⟩ ∧
    ((List.range' 1 k).map (fun j =>
        (⟨step.name, j, Status.failure, some (f j), []⟩ : StepRecord))
      ++ ([⟨step.name, k + 1, Status.success, none, outs.map (fun p => p.1)⟩] :
        List StepRecord)).length = k + 1 ∧
    (((List.range' 1 k).map (fun j =>
        (⟨step.name, j, Status.failure, some (f j), []⟩ : StepRecord))
      ++ ([⟨step.name, k + 1, Status.success, none, outs.map (fun p => p.1)⟩] :
        List StepRecord)).map (fun r : StepRecord => r.attempt))
      = List.range' 1 (k + 1) := by
  have hf' : ∀ j, j < k → step.call ctx (1 + j) = Except.error (f (1 + j)) := by
    intro j hj
    exact hfail (1 + j) (by omega) (by omega)
  have hok' : step.call ctx (1 + k) = Except.ok outs := by
    rw [Nat.add_comm 1 k]
    exact hok
  have hlt : k < maxAttemptsFor cfg step := by
    simp only [maxAttemptsFor, hretry, if_true]
    omega
  have hac := attemptCall_retry_spec step ctx f k 1 (maxAttemptsFor cfg step) outs
    hf' hok' hlt
  have hkk : 1 + k = k + 1 := Nat.add_comm 1 k
  refine ⟨?_, ?_, ?_⟩
  · simp only [run, runSteps, hmiss, hac, hcol, hkk]
  · simp
  · simp only [List.map_append, List.map_map, List.map_cons, List.map_nil]
    have hmm : ((fun r : StepRecord => r.attempt) ∘
        (fun j => (⟨step.name, j, Status.failure, some (f j), []⟩ : StepRecord)))
        = id := rfl
    rw [hmm, List.map_id, List.range'_1_concat, Nat.add_comm 1 k]

theorem claim_C5_retry_then_success_witness :
    run demoConfig [failOnceStep] [] =
      ⟨true, [("contentRef", "cid-2")],
        [⟨"FlakyStore", 1, Status.failure, some "StorageUnavailableError", []⟩,
         ⟨"FlakyStore", 2, Status.success, none, ["contentRef"]⟩], none⟩ :=
  (claim_C5_retry_then_success demoConfig failOnceStep [] []
      (fun _ => "StorageUnavailableError") 1 [("contentRef", "cid-2")]
      rfl (by decide) rfl
      (fun j h1 h2 => by
        have hj : j = 1 := by omega
        subst hj
        rfl)
      rfl rfl).1

/-- Claim C6: for every Step Registry state and every pair of `register`
calls with steps of the same name, the second registration fails with
`DuplicateStepError` regardless of which of the two steps is registered
first, and a failing `register` call leaves the registry's ordered list
unchanged. -/
theorem claim_C6_duplicate_step :
    (∀ (r : Registry) (s1 s2 : Step), s1.name = s2.name →
      (register (register r s1).1 s2).2 =
        some (OrchestratorError.duplicateStep s2.name)) ∧
    (∀ (r : Registry) (s : Step) (e : OrchestratorError),
      (register r s).2 = some e →
      (register r s).1 = r ∧ allSteps (register r s).1 = allSteps r) := by
  constructor
  · intro r s1 s2 hname
    cases h : hasStepNamed r s1.name with
    | true =>
      have h2 : hasStepNamed r s2.name = true := hname ▸ h
      simp [register, h, h2]
    | false =>
      have h2 : hasStepNamed ⟨r.steps ++ [s1]⟩ s2.name = true := by
        simp only [hasStepNamed, List.any_append, Bool.or_eq_true]
        refine Or.inr ?_
        simp [hname]
      simp [register, h, h2]
  · intro r s e h
    cases hh : hasStepNamed r s.name with
    | true => simp [register, hh]
    | false => simp [register, hh] at h

theorem claim_C6_duplicate_step_witness :
    (register (register ⟨[]⟩ settleStep).1 failingSettleStep).2 =
      some (OrchestratorError.duplicateStep "Settle") :=
  claim_C6_duplicate_step.1 ⟨[]⟩ settleStep failingSettleStep rfl

/-- Claim C7: for every successful run the trail decomposes into one
contiguous non-empty block per registered step, in the Step Registry's
`allSteps()` order, with each block's sub-entries named after its step and
ordered by attempt number `1, 2, ...`; when every collaborator succeeds on
the first attempt the trail's step-name sequence is exactly `allSteps()`'s
name sequence. -/
theorem claim_C7_trail_order (cfg : EngineConfig) (reg : Registry) (ctx : Context)
    (hA : 1 ≤ cfg.maxAttempts) :
    ((run cfg (allSteps reg) ctx).success = true →
      ∃ blocks : List (List StepRecord),
        (run cfg (allSteps reg) ctx).trail = blocks.flatten ∧
        List.Forall₂ (fun (step : Step) (block : List StepRecord) =>
          block ≠ [] ∧ (∀ r ∈ block, r.stepName = step.name) ∧
          block.map (fun r => r.attempt) = List.range' 1 block.length)
          (allSteps reg) blocks) ∧
    (firstAttemptClean (allSteps reg) ctx = true →
      (run cfg (allSteps reg) ctx).trail.map (fun r => r.stepName) =
        (allSteps reg).map Step.name) := by
  constructor
  · exact runSteps_success_blocks cfg (allSteps reg) ctx
  · intro h
    exact (runSteps_clean cfg hA (allSteps reg) ctx h).2.2

theorem claim_C7_trail_order_witness :
    (run demoConfig (allSteps ⟨demoSteps⟩) []).trail.map (fun r => r.stepName) =
      (allSteps ⟨demoSteps⟩).map Step.name :=
  (claim_C7_trail_order demoConfig ⟨demoSteps⟩ [] (by decide)).2 (by decide)

/-- Claim C8: the Audit Recorder's trail is append-only — `record` appends
exactly one entry at the end, so no entry is ever removed or edited and
every earlier trail state is a prefix of every later one; `trail()` returns
a snapshot value, which later `record` calls cannot mutate. -/
theorem claim_C8_recorder_append_only :
    (∀ (a : AuditRecorder) (e : StepRecord), trail (record a e) = trail a ++ [e]) ∧
    (∀ (a : AuditRecorder) (es : List StepRecord),
      trail a <+: trail (List.foldl record a es)) := by
  constructor
  · intro a e
    rfl
  · intro a es
    induction es generalizing a with
    | nil => exact List.prefix_refl _
    | cons e es ih =>
      have h1 : trail a <+: trail (record a e) := ⟨[e], rfl⟩
      exact h1.trans (ih (record a e))

/-- Claim C9: for every execution of the faucet-request script in which
`main` rejects (including an invalid or missing `BASE_SEPOLIA_PRIVATE_KEY`
or a failed faucet call), the error is logged via `console.error` and the
process exits with status code 1; the script never swallows a rejection of
`main` silently — a clean exit means `main` resolved. -/
theorem claim_C9_faucet_error_exit (w : FaucetWorld) :
    (∀ e, (faucetMain w).result = Except.error e →
      (faucetScript w).errorLogs = [e] ∧ (faucetScript w).exitCode = some 1) ∧
    ((faucetScript w).exitCode = none →
      (faucetScript w).errorLogs = [] ∧ ∃ u, (faucetMain w).result = Except.ok u) := by
  constructor
  · intro e he
    simp [faucetScript, he]
  · intro hnone
    cases hres : (faucetMain w).result with
    | ok u => exact ⟨by simp [faucetScript, hres], u, rfl⟩
    | error e => simp [faucetScript, hres] at hnone

theorem claim_C9_faucet_error_exit_witness :
    (faucetScript badKeyWorld).errorLogs = ["invalid private key"] ∧
    (faucetScript badKeyWorld).exitCode = some 1 :=
  (claim_C9_faucet_error_exit badKeyWorld).1 "invalid private key" rfl

theorem faucetScript_reports (w : FaucetWorld) (k a : String)
    (henv : w.privateKeyEnv = some k) (hwallet : w.newWallet (some k) = Except.ok a) :
    (faucetScript w).logs.head? = some ("Created account: " ++ a) ∧
    (faucetScript w).faucetRequests = [a] := by
  have hw : w.newWallet w.privateKeyEnv = Except.ok a := by
    rw [henv]
    exact hwallet
  cases hreq : w.requestFaucet a with
  | ok tx => simp [faucetScript, faucetMain, hw, hreq]
  | error e => simp [faucetScript, faucetMain, hw, hreq]

/-- Claim C10: the faucet-request script derives its wallet
deterministically — for every environment whose `BASE_SEPOLIA_PRIVATE_KEY`
is a valid private key, the address printed as the created account and the
address submitted to the faucet both equal the address the wallet
constructor derives from that key, so two runs over the same key and
derivation report the same address. -/
theorem claim_C10_faucet_deterministic_address (w : FaucetWorld) (k a : String)
    (henv : w.privateKeyEnv = some k) (hwallet : w.newWallet (some k) = Except.ok a) :
    (faucetScript w).logs.head? = some ("Created account: " ++ a) ∧
    (faucetScript w).faucetRequests = [a] ∧
    (∀ w' : FaucetWorld, w'.privateKeyEnv = some k →
      w'.newWallet (some k) = Except.ok a →
      (faucetScript w').logs.head? = (faucetScript w).logs.head? ∧
      (faucetScript w').faucetRequests = (faucetScript w).faucetRequests) := by
  obtain ⟨h1, h2⟩ := faucetScript_reports w k a henv hwallet
  refine ⟨h1, h2, ?_⟩
  intro w' henv' hwallet'
  obtain ⟨h1', h2'⟩ := faucetScript_reports w' k a henv' hwallet'
  exact ⟨by rw [h1', h1], by rw [h2', h2]⟩

theorem claim_C10_faucet_deterministic_address_witness :
    (faucetScript goodKeyWorld).logs.head? =
      some ("Created account: " ++ "0xaddr") ∧
    (faucetScript goodKeyWorld).faucetRequests = ["0xaddr"] :=
  ⟨(claim_C10_faucet_deterministic_address goodKeyWorld "0xkey" "0xaddr" rfl rfl).1,
   (claim_C10_faucet_deterministic_address goodKeyWorld "0xkey" "0xaddr" rfl rfl).2.1⟩

end Genesis
